import Mathlib

/-!
# Verification of the github-pera1-workers repository pipeline

Shallow embedding of the repository-resolution and file-selection pipeline of
`src/github.ts` (with the error-to-HTTP-status mapping of `src/app.ts`), and
proofs about it.

Modelling conventions:
* JavaScript strings are modelled as Lean `String`s viewed as their list of
  characters (`String.data`).  JS indexes strings by UTF-16 code units; for
  strings of Basic-Multilingual-Plane scalars (every string the program
  manipulates structurally) one code unit is one character, and the model
  identifies the two.
* Platform primitives (`TextEncoder`, `String.prototype.toLowerCase`,
  `trim`, `split`, `includes`, `startsWith`, `endsWith`, `toFixed`, the WHATWG
  URL parser, `fetch` and the zip reader) are modelled by explicit Lean
  functions, each documented at its definition.
* JS truthiness of optional strings (`undefined`/`""` are falsy) is modelled
  by `jsTruthy`.
-/

namespace Pera1

/-- Model of JS truthiness for an optional string value:
`undefined` and the empty string are falsy, everything else truthy. -/
def jsTruthy : Option String → Bool
  | none => false
  | some s => !(s == "")

/-- Model of `String.prototype.toLowerCase` for one character (ASCII range;
the program only lower-cases ASCII names and extensions). -/
def charLower (c : Char) : Char :=
  if 65 ≤ c.toNat ∧ c.toNat ≤ 90 then Char.ofNat (c.toNat + 32) else c

/-- Model of `String.prototype.toLowerCase`. -/
def jsToLower (s : String) : String := ⟨s.data.map charLower⟩

/-- Model of `String.prototype.startsWith`. -/
def strStartsWith (s p : String) : Bool :=
  decide (s.data.take p.data.length = p.data)

/-- Model of `String.prototype.endsWith`. -/
def strEndsWith (s p : String) : Bool :=
  decide (s.data.drop (s.data.length - p.data.length) = p.data)

/-- Model of `String.prototype.slice(n)` / `substring` from a character index. -/
def strDrop (s : String) (n : Nat) : String := ⟨s.data.drop n⟩

/-- Model of `String.prototype.substring(0, n)`. -/
def strTake (s : String) (n : Nat) : String := ⟨s.data.take n⟩

/-- Model of `String.prototype.includes`: some index of the haystack starts
an occurrence of the pattern. -/
def strIncludes (hay pat : String) : Bool :=
  (List.range (hay.data.length + 1)).any
    (fun i => decide ((hay.data.drop i).take pat.data.length = pat.data))

/-- Whitespace stripped by `String.prototype.trim` (ASCII part; the requests
the program handles contain no exotic Unicode spaces). -/
def isJsSpace (c : Char) : Bool :=
  c == ' ' || c == '\t' || c == '\n' || c == '\r' || c == '\x0b' || c == '\x0c'

/-- Model of `String.prototype.trim`. -/
def jsTrim (s : String) : String :=
  ⟨((s.data.dropWhile isJsSpace).reverse.dropWhile isJsSpace).reverse⟩

/-- Splitting a character list at every occurrence of a separator character. -/
def splitChar (sep : Char) : List Char → List (List Char)
  | [] => [[]]
  | c :: cs =>
    let rest := splitChar sep cs
    if c == sep then [] :: rest
    else
      match rest with
      | [] => [[c]]
      | r :: rs => (c :: r) :: rs

/-- Model of `String.prototype.split` with a one-character separator
(the program only splits on `"/"`, `","` and `"."`). -/
def strSplit (s : String) (sep : Char) : List String :=
  (splitChar sep s.data).map (fun l => ⟨l⟩)

/-- Model of `Array.prototype.join`. -/
def joinWith (sep : String) : List String → String
  | [] => ""
  | [x] => x
  | x :: xs => x ++ sep ++ joinWith sep xs

/-- Model of `"  ".repeat(n)`-style repetition. -/
def strRepeat (s : String) (n : Nat) : String :=
  String.join (List.replicate n s)

/-- UTF-8 byte length of one Unicode scalar value. -/
def utf8CharLen (c : Char) : Nat :=
  if c.toNat < 0x80 then 1
  else if c.toNat < 0x800 then 2
  else if c.toNat < 0x10000 then 3
  else 4

/-- Model of `new TextEncoder().encode(content).length`: the UTF-8 byte size
of the string (`github.ts` line 184). -/
def utf8Size (s : String) : Nat := (s.data.map utf8CharLen).sum

/-- Model of `x.toFixed(2)` applied to `bytes / 1024`, as the program does for
every KiB rendering.  `bytes / 1024` is exactly representable as a double
(1024 is a power of two), and ECMA-262 `toFixed` rounds the exact value half
away from zero, so the result is `⌊(100·bytes/1024) + 1/2⌋` hundredths. -/
def kbFixed2 (bytes : Nat) : String :=
  let hundredths := (100 * bytes + 512) / 1024
  toString (hundredths / 100) ++ "." ++
    (if hundredths % 100 < 10 then "0" else "") ++ toString (hundredths % 100)

/-! ## Error model

`processGitHubRepository` throws plain `Error`s with fixed message shapes plus
the `GitHubFetchError` subclass (`github.ts` lines 4-10); `app.ts` lines
233-257 classify a thrown error into an HTTP status. -/

/-- The error kinds thrown by the pipeline, with their payloads. -/
inductive PipeError where
  | invalidUrl (detail : String)
  | invalidFormat
  | fetchError (status : Nat) (statusText : String)
  | fileNotFound (path : String)
deriving DecidableEq, Repr

/-- The JS `Error.message` carried by each error kind (`github.ts` lines 7,
42, 47, 217). -/
def errorMessage : PipeError → String
  | .invalidUrl detail => "Invalid URL: " ++ detail
  | .invalidFormat => "Invalid GitHub repository URL format"
  | .fetchError status statusText =>
      "Failed to fetch repository: " ++ toString status ++ " " ++ statusText
  | .fileNotFound path => "File not found: " ++ path

/-- The errors the spec calls `InvalidInput`: malformed URL or missing
owner/repo segments. -/
def isInvalidInputError : PipeError → Bool
  | .invalidUrl _ => true
  | .invalidFormat => true
  | _ => false

/-- Embedding of `mapGitHubErrorToStatus` (`app.ts` lines 233-257):
`GitHubFetchError` is classified by its status, every other error by
case-insensitive substring tests on its message. -/
def mapGitHubErrorToStatus (e : PipeError) : Nat :=
  match e with
  | .fetchError status _ =>
      if status = 401 ∨ status = 403 then 403
      else if status = 404 then 404
      else 500
  | _ =>
      let normalized := jsToLower (errorMessage e)
      if strIncludes normalized "invalid url"
          || strIncludes normalized "invalid github repository url format"
          || strIncludes normalized "arguments are required"
          || strIncludes normalized "url parameter is required"
          || strIncludes normalized "url must be a non-empty string" then 400
      else if strIncludes normalized "file not found" then 404
      else 500

/-! ## Reference resolver (`github.ts` lines 36-127) -/

/-- The request descriptor handed to `processGitHubRepository`
(fields of `params`, `github.ts` line 36). -/
structure Params where
  url : String
  dir : Option String
  ext : Option String
  branch : Option String
  file : Option String
  mode : Option String
deriving Repr, DecidableEq

/-- `parsed.pathname.split("/").filter(Boolean)` (`github.ts` line 45). -/
def urlSegments (pathname : String) : List String :=
  (strSplit pathname '/').filter (fun x => !(x == ""))

/-- `remainingPath.endsWith("/") ? remainingPath : remainingPath + "/"`
(`github.ts` lines 65, 80, 379). -/
def ensureSlash (d : String) : String :=
  if strEndsWith d "/" then d else d ++ "/"

/-- `d.replace(/^\/+/, "")` (`github.ts` line 100). -/
def stripLeadingSlashes (d : String) : String :=
  ⟨d.data.dropWhile (fun c => c == '/')⟩

/-- Embedding of the path-embedded branch / directory / file extraction from
the URL path segments after owner and repo (`github.ts` lines 54-82),
including the shorthand-scoping fallback.  Returns
`(pathBranch, pathTargetDirs, pathTargetFile)`. -/
def extractPathInfo (ps : List String) : Option String × List String × Option String :=
  let base : Option String × List String × Option String :=
    if ps.length ≥ 2 then
      if ps.getD 0 "" == "tree" then
        let remainingPath := joinWith "/" (ps.drop 2)
        (some (ps.getD 1 ""),
         if remainingPath == "" then [] else [ensureSlash remainingPath],
         none)
      else if ps.getD 0 "" == "blob" && ps.length ≥ 3 then
        let filePath := joinWith "/" (ps.drop 2)
        (some (ps.getD 1 ""), [],
         if filePath == "" then none else some filePath)
      else (none, [], none)
    else (none, [], none)
  if !(jsTruthy base.1) && !(jsTruthy base.2.2) && base.2.1.length == 0
      && ps.length > 0 then
    let scopePath := joinWith "/" ps
    (base.1,
     if scopePath == "" then base.2.1 else [ensureSlash scopePath],
     base.2.2)
  else base

/-- `dir?.split(",").map(d => d.trim()).filter(d => d)` (`github.ts` 85-88). -/
def queryDirsOf (dir : Option String) : Option (List String) :=
  dir.map (fun d => ((strSplit d ',').map jsTrim).filter (fun x => !(x == "")))

/-- `ext?.split(",").map(e => e.trim().toLowerCase()).filter(e => e)`
(`github.ts` 89-92). -/
def queryExtsOf (ext : Option String) : Option (List String) :=
  ext.map (fun e =>
    ((strSplit e ',').map (fun x => jsToLower (jsTrim x))).filter (fun x => !(x == "")))

/-- Embedding of `normalizeDir` (`github.ts` lines 99-105). -/
def normalizeDir (baseDir d : String) : String :=
  let trimmed := stripLeadingSlashes d
  let withSlash := ensureSlash trimmed
  if baseDir == "" then withSlash
  else if strStartsWith withSlash baseDir then withSlash
  else baseDir ++ withSlash

/-- The canonical descriptor produced by the resolver part of
`processGitHubRepository`. -/
structure Resolved where
  owner : String
  repo : String
  branch : String
  finalTargetDirs : List String
  targetExts : List String
  targetFile : Option String
  isTreeMode : Bool
deriving Repr, DecidableEq

/-- Embedding of the resolution logic of `processGitHubRepository` on the
already-split URL segments (`github.ts` lines 50-127), reached only when
`segments.length ≥ 2`. -/
def resolveScopeCore (segments : List String) (p : Params) : Resolved :=
  let owner := segments.getD 0 ""
  let repo := segments.getD 1 ""
  let pathSegments := segments.drop 2
  let pinfo := extractPathInfo pathSegments
  let pathBranch := pinfo.1
  let pathTargetDirs := pinfo.2.1
  let pathTargetFile := pinfo.2.2
  let queryDirs := queryDirsOf p.dir
  let queryExts := queryExtsOf p.ext
  let isTreeMode := p.mode == some "tree"
  let branch :=
    if jsTruthy p.branch then p.branch.getD ""
    else if jsTruthy pathBranch then pathBranch.getD ""
    else "main"
  let baseDir := pathTargetDirs.getD 0 ""
  let finalTargetDirs :=
    match queryDirs with
    | some qd => if qd.length > 0 then qd.map (normalizeDir baseDir) else pathTargetDirs
    | none => pathTargetDirs
  let targetExts := queryExts.getD []
  let targetFile :=
    if jsTruthy p.file then
      let f := p.file.getD ""
      let normalized := if strStartsWith f "/" then strDrop f 1 else f
      some (if !(baseDir == "") && !(strStartsWith normalized baseDir) then
              baseDir ++ normalized
            else normalized)
    else pathTargetFile
  { owner, repo, branch, finalTargetDirs, targetExts, targetFile, isTreeMode }

/-- Embedding of the resolver on a parsed pathname (`github.ts` lines 45-48
then 50-127): fewer than two non-empty path segments is the
"Invalid GitHub repository URL format" error. -/
def resolveScope (pathname : String) (p : Params) : Except PipeError Resolved :=
  let segments := urlSegments pathname
  if segments.length < 2 then .error .invalidFormat
  else .ok (resolveScopeCore segments p)

/-- Embedding of the resolver from the raw url (`github.ts` lines 38-48).
The WHATWG `new URL(...)` primitive is abstracted as `parseUrl`, which
returns the parsed pathname or the thrown error's message. -/
def resolveReference (parseUrl : String → Except String String) (p : Params) :
    Except PipeError Resolved :=
  let raw := if strStartsWith p.url "http" then p.url else "https://" ++ p.url
  match parseUrl raw with
  | .error msg => .error (.invalidUrl msg)
  | .ok pathname => resolveScope pathname p

/-! ## Archive fetcher with branch fallback (`github.ts` lines 16-29, 130-150) -/

/-- The part of a `fetch` response the fallback logic inspects. -/
structure FetchResp where
  ok : Bool
  status : Nat
  statusText : String
deriving Repr, DecidableEq

/-- One iteration structure of the fallback loop (`github.ts` lines 133-145):
try each default branch in order, skipping the one equal to the requested
branch, stopping at the first `ok` response.  The network is abstracted as
`net : branch ↦ response`; the second component is the list of branches
actually requested, in order. -/
def tryFallbacks (net : String → FetchResp) (branch : String) :
    List String → Option (String × FetchResp) × List String
  | [] => (none, [])
  | b :: rest =>
    if b == branch then tryFallbacks net branch rest
    else
      let r := net b
      if r.ok then (some (b, r), [b])
      else
        let p := tryFallbacks net branch rest
        (p.1, b :: p.2)

/-- Embedding of the zip fetch with fallback (`github.ts` lines 130-150):
on a non-ok first response, try `["main", "master"]`; if none succeeds, throw
`GitHubFetchError` with the status/statusText of the first response.
Returns the outcome together with the ordered list of requested branches. -/
def fetchZipWithFallback (net : String → FetchResp) (branch : String) :
    Except PipeError (String × FetchResp) × List String :=
  let first := net branch
  if first.ok then (.ok (branch, first), [branch])
  else
    match tryFallbacks net branch ["main", "master"] with
    | (some found, log) => (.ok found, branch :: log)
    | (none, log) =>
        (.error (.fetchError first.status first.statusText), branch :: log)

/-! ## File filter (`github.ts` lines 152-211, 295-392) -/

/-- `MAX_DISPLAY_FILE_SIZE` (`github.ts` line 13): 30 KiB. -/
def MAX_DISPLAY_FILE_SIZE : Nat := 30 * 1024

/-- `MAX_FILE_SIZE` (`github.ts` line 315): 500 KiB. -/
def MAX_FILE_SIZE : Nat := 500 * 1024

/-- `imageExtensions` (`github.ts` lines 316-325). -/
def imageExtensions : List String :=
  [".png", ".jpg", ".jpeg", ".gif", ".bmp", ".ico", ".webp", ".svg"]

/-- `binaryExtensions` (`github.ts` lines 326-352). -/
def binaryExtensions : List String :=
  [".zip", ".tar", ".gz", ".rar", ".7z", ".exe", ".dll", ".so", ".dylib",
   ".pdf", ".doc", ".docx", ".xls", ".xlsx", ".ppt", ".pptx",
   ".mp3", ".mp4", ".avi", ".mov", ".wav", ".bin", ".dat", ".db", ".sqlite"]

/-- The non-printable test of `isBinaryContent` (`github.ts` line 301):
character code 0, or below 32 and not tab/newline/carriage-return. -/
def isNonPrintable (code : Nat) : Bool :=
  code == 0 || (code < 32 && !(code == 9 || code == 10 || code == 13))

/-- Embedding of `isBinaryContent` (`github.ts` lines 296-306).  The source
compares `nonPrintable / sampleSize > 0.05` on doubles; since
`sampleSize ≤ 1000`, the quotient and the literal `0.05` round to equal or
correctly-ordered doubles exactly when the rational comparison
`20 * nonPrintable > sampleSize` holds, which is the condition embedded here
(an empty sample gives `NaN > 0.05 = false` in JS and `0 > 0 = false` here). -/
def isBinaryContent (content : String) : Bool :=
  let sampleSize := min content.data.length 1000
  let nonPrintable :=
    ((content.data.take sampleSize).filter (fun c => isNonPrintable c.toNat)).length
  decide (20 * nonPrintable > sampleSize)

/-- The lock-file test of `shouldSkipFile` (`github.ts` line 357): the regex
matches when the name contains `-lock.` or ends with `.lock`. -/
def isLockFile (filename : String) : Bool :=
  strIncludes filename "-lock." || strEndsWith filename ".lock"

/-- `filename.toLowerCase().split(".").pop() || ""` (`github.ts` line 354). -/
def fileExt (filename : String) : String :=
  (strSplit (jsToLower filename) '.').getLastD ""

/-- The image/binary extension test of `shouldSkipFile`
(`github.ts` line 360). -/
def isImageOrBinaryExt (filename : String) : Bool :=
  imageExtensions.contains ("." ++ fileExt filename)
    || binaryExtensions.contains ("." ++ fileExt filename)

/-- Embedding of `shouldSkipFile` (`github.ts` lines 309-372). -/
def shouldSkipFile (filename : String) (size : Nat) (content : String)
    (hasTsConfig : Bool) : Bool :=
  if isLockFile filename then true
  else if isImageOrBinaryExt filename then true
  else if hasTsConfig && (strEndsWith filename ".js" || strEndsWith filename ".mjs") then
    true
  else if size > MAX_FILE_SIZE then true
  else if !(content == "") && isBinaryContent content then true
  else false

/-- Embedding of `shouldIncludeFile` (`github.ts` lines 375-392). -/
def shouldIncludeFile (filename : String) (targetDirs targetExts : List String) :
    Bool :=
  if targetDirs.length > 0
      && !(targetDirs.any (fun dir => strStartsWith filename (ensureSlash dir))) then
    false
  else if targetExts.length > 0
      && !(targetExts.contains (jsToLower ((strSplit filename '.').getLastD ""))) then
    false
  else true

/-- `/readme\.md$/i.test(fileRelative)` (`github.ts` line 178). -/
def isReadmeFile (rel : String) : Bool :=
  strEndsWith (jsToLower rel) "readme.md"

/-- One member of the decompressed archive as JSZip yields it: its full path,
directory flag, and (for the model, eagerly) its decoded string content.
JSZip's `files` is an object keyed by path, so member names are distinct. -/
structure ZipEntry where
  name : String
  dir : Bool
  content : String
deriving Repr, DecidableEq

/-- The value stored in the `fileTree` map (`github.ts` line 161); the
absent `isTruncated` of the placeholder branch is the falsy `false`. -/
structure FileInfo where
  size : Nat
  content : String
  isTruncated : Bool
deriving Repr, DecidableEq

/-- The loop state of the per-entry scan (`github.ts` lines 161-163):
the insertion-ordered `fileTree` map and the two running totals. -/
structure ScanState where
  fileTree : List (String × FileInfo)
  originalTotalSize : Nat
  displayTotalSize : Nat
deriving Repr, DecidableEq

/-- The configuration the per-entry scan closes over. -/
structure ScanConfig where
  rootPfx : String
  targetFile : Option String
  targetDirs : List String
  targetExts : List String
  isTreeMode : Bool
  hasTsConfig : Bool
deriving Repr, DecidableEq

/-- The selection rule of the scan loop (`github.ts` lines 172-176):
with a truthy single-file target only the exact match survives, otherwise
`shouldIncludeFile` decides. -/
def selectEntry (cfg : ScanConfig) (rel : String) : Bool :=
  if jsTruthy cfg.targetFile then decide (some rel = cfg.targetFile)
  else shouldIncludeFile rel cfg.targetDirs cfg.targetExts

/-- The truncation marker appended to an over-size file
(`github.ts` line 197). -/
def truncationMarker (size : Nat) : String :=
  "\n\nThis file is too large, truncated at 30KB. There is "
    ++ kbFixed2 (size - MAX_DISPLAY_FILE_SIZE) ++ "KB remaining."

/-- The truncation bookkeeping for one surviving file (`github.ts` lines
190-200): the stored `FileInfo` and the display size added to the total. -/
def processContent (content : String) : FileInfo × Nat :=
  let size := utf8Size content
  if size > MAX_DISPLAY_FILE_SIZE then
    ({ size := size,
       content := strTake content MAX_DISPLAY_FILE_SIZE ++ truncationMarker size,
       isTruncated := true },
     MAX_DISPLAY_FILE_SIZE)
  else ({ size := size, content := content, isTruncated := false }, size)

/-- What the scan loop does with one archive member (`github.ts` lines
165-210), as an optional `(key, stored info, original-size contribution,
display-size contribution)`. -/
def scanEntry (cfg : ScanConfig) (e : ZipEntry) : Option (String × FileInfo × Nat × Nat) :=
  if e.dir then none
  else if !(strStartsWith e.name cfg.rootPfx) then none
  else
    let rel := strDrop e.name cfg.rootPfx.length
    if !(selectEntry cfg rel) then none
    else if cfg.isTreeMode && !(isReadmeFile rel) then
      some (rel, { size := 0, content := "", isTruncated := false }, 0, 0)
    else
      let size := utf8Size e.content
      if shouldSkipFile rel size e.content cfg.hasTsConfig then none
      else
        let pc := processContent e.content
        some (rel, pc.1, size, pc.2)

/-- One iteration of the scan loop on the running state. -/
def scanStep (cfg : ScanConfig) (st : ScanState) (e : ZipEntry) : ScanState :=
  match scanEntry cfg e with
  | none => st
  | some (key, info, origSz, dispSz) =>
      { fileTree := st.fileTree ++ [(key, info)],
        originalTotalSize := st.originalTotalSize + origSz,
        displayTotalSize := st.displayTotalSize + dispSz }

/-- The whole scan loop (`github.ts` lines 161-211). -/
def buildFileTree (cfg : ScanConfig) (entries : List ZipEntry) : ScanState :=
  entries.foldl (scanStep cfg) ⟨[], 0, 0⟩

/-- `hasTsConfig` (`github.ts` lines 157-159), over all archive member names
(files and directories alike). -/
def hasTsConfigIn (entries : List ZipEntry) (rootPfx : String) : Bool :=
  entries.any (fun e => strStartsWith e.name rootPfx && strEndsWith e.name "tsconfig.json")

/-- The root-prefix `{repo}-{branch}/` (`github.ts` line 154). -/
def rootPfxOf (r : Resolved) : String := r.repo ++ "-" ++ r.branch ++ "/"

/-- The scan configuration `processGitHubRepository` builds for an archive
(`github.ts` lines 154-163). -/
def scanConfigOf (r : Resolved) (entries : List ZipEntry) : ScanConfig :=
  { rootPfx := rootPfxOf r
    targetFile := r.targetFile
    targetDirs := r.finalTargetDirs
    targetExts := r.targetExts
    isTreeMode := r.isTreeMode
    hasTsConfig := hasTsConfigIn entries (rootPfxOf r) }

/-- The filtered, sized file set of an archive (`github.ts` lines 152-211). -/
def processArchive (r : Resolved) (entries : List ZipEntry) : ScanState :=
  buildFileTree (scanConfigOf r entries) entries

/-! ## Content renderer (`github.ts` lines 213-293) -/

/-- Code-unit lexicographic order on strings, the order JS default
`Array.prototype.sort` uses on strings. -/
def codeUnitsLe : List Char → List Char → Bool
  | [], _ => true
  | _ :: _, [] => false
  | a :: as, b :: bs =>
    if a.toNat < b.toNat then true
    else if b.toNat < a.toNat then false
    else codeUnitsLe as bs

/-- Sorted insertion for `sortStrings`. -/
def insertSorted (x : String) : List String → List String
  | [] => [x]
  | y :: ys => if codeUnitsLe x.data y.data then x :: y :: ys else y :: insertSorted x ys

/-- Model of `Array.prototype.sort(undefined)` on (distinct) strings:
sorting by code-unit lexicographic order. -/
def sortStrings : List String → List String
  | [] => []
  | x :: xs => insertSorted x (sortStrings xs)

/-- Every ancestor path of one file path (`github.ts` lines 260-263). -/
def dirPathsOf (path : String) : List String :=
  let parts := strSplit path '/'
  (List.range parts.length).map (fun i => joinWith "/" (parts.take (i + 1)))

/-- The deduplicated `dirs` set of `createTreeDisplay`
(`github.ts` lines 257-264), in insertion order. -/
def collectDirs (fileTree : List (String × FileInfo)) : List String :=
  fileTree.foldl
    (fun acc p =>
      (dirPathsOf p.1).foldl (fun a d => if a.contains d then a else a ++ [d]) acc)
    []

/-- Embedding of `createTreeDisplay` (`github.ts` lines 253-293). -/
def createTreeDisplay (fileTree : List (String × FileInfo)) (showSize : Bool) :
    String :=
  let dirs := collectDirs fileTree
  let sortedDirs := sortStrings dirs
  sortedDirs.foldl
    (fun result d =>
      let parts := strSplit d '/'
      let depth := parts.length - 1
      let indent := strRepeat "  " depth
      let name := parts.getLastD ""
      let isFile := !(dirs.any (fun d2 => strStartsWith d2 (d ++ "/")))
      if showSize && isFile then
        match List.lookup d fileTree with
        | some fileInfo =>
            let sizeKB := kbFixed2 fileInfo.size
            if fileInfo.isTruncated then
              result ++ indent ++ "📄 " ++ name ++ " (" ++ sizeKB ++ " KB→30KB truncated)\n"
            else
              result ++ indent ++ "📄 " ++ name ++ " (" ++ sizeKB ++ " KB)\n"
        | none => result ++ indent ++ "📄 " ++ name ++ " (0.00 KB)\n"
      else
        result ++ indent ++ (if isFile then "📄" else "📂") ++ " " ++ name ++ "\n")
    ""

/-- The TREE-mode response (`github.ts` lines 223-238). -/
def renderTreeMode (st : ScanState) : String :=
  let base := "# Directory Structure\n\n" ++ createTreeDisplay st.fileTree false
  let readmeFiles := st.fileTree.filter
    (fun p => isReadmeFile p.1 && !(p.2.content == ""))
  if readmeFiles.length > 0 then
    base ++ "\n# README Files\n\n"
      ++ readmeFiles.foldl
          (fun acc p => acc ++ "## " ++ p.1 ++ "\n\n" ++ p.2.content ++ "\n\n") ""
  else base

/-- The FULL-mode response (`github.ts` lines 240-249). -/
def renderFullMode (st : ScanState) : String :=
  "# 📁 File Tree\n\n" ++ createTreeDisplay st.fileTree true
    ++ "\n# 📝 Files (Total: " ++ kbFixed2 st.originalTotalSize ++ " KB→"
    ++ kbFixed2 st.displayTotalSize ++ " KB)\n\n"
    ++ st.fileTree.foldl
        (fun acc p => acc ++ "```" ++ p.1 ++ "\n" ++ p.2.content ++ "\n```\n\n") ""

/-- The post-fetch pipeline of `processGitHubRepository` on a decompressed
archive (`github.ts` lines 152-249): scan, then single-file / tree / full
response. -/
def runPipeline (r : Resolved) (entries : List ZipEntry) : Except PipeError String :=
  let st := processArchive r entries
  if jsTruthy r.targetFile then
    let t := r.targetFile.getD ""
    match List.lookup t st.fileTree with
    | none => .error (.fileNotFound t)
    | some fi => .ok fi.content
  else if r.isTreeMode then .ok (renderTreeMode st)
  else .ok (renderFullMode st)

/-! ## Supporting lemmas -/

/-- A string made by appending starts with its first part. -/
theorem strStartsWith_append (a b : String) : strStartsWith (a ++ b) a = true := by
  simp [strStartsWith, String.data_append, List.take_left]

/-- Dropping the length of the first part of an appended string leaves the
second part. -/
theorem strDrop_append (a b : String) : strDrop (a ++ b) a.length = b := by
  unfold strDrop
  rw [show (a ++ b).data = a.data ++ b.data from String.data_append a b,
    show a.length = a.data.length from rfl, List.drop_left]

/-- The scan loop only appends to the file tree, entry by entry. -/
theorem foldl_scanStep_fileTree (cfg : ScanConfig) (es : List ZipEntry) :
    ∀ st : ScanState,
      (es.foldl (scanStep cfg) st).fileTree
        = st.fileTree
          ++ es.filterMap (fun e => (scanEntry cfg e).map (fun x => (x.1, x.2.1))) := by
  induction es with
  | nil => intro st; simp
  | cons e es ih =>
      intro st
      rw [List.foldl_cons, List.filterMap_cons, ih]
      cases h : scanEntry cfg e with
      | none => simp [scanStep, h]
      | some x => simp [scanStep, h]

/-- Closed form of the file tree produced by the scan loop. -/
theorem buildFileTree_fileTree (cfg : ScanConfig) (es : List ZipEntry) :
    (buildFileTree cfg es).fileTree
      = es.filterMap (fun e => (scanEntry cfg e).map (fun x => (x.1, x.2.1))) := by
  simpa using foldl_scanStep_fileTree cfg es ⟨[], 0, 0⟩

/-- Inversion of one scan-loop iteration: what must hold of an entry that
contributes to the file tree. -/
theorem scanEntry_eq_some (cfg : ScanConfig) (e : ZipEntry)
    (x : String × FileInfo × Nat × Nat) (h : scanEntry cfg e = some x) :
    e.dir = false ∧ strStartsWith e.name cfg.rootPfx = true ∧
      selectEntry cfg (strDrop e.name cfg.rootPfx.length) = true ∧
      x.1 = strDrop e.name cfg.rootPfx.length := by
  unfold scanEntry at h
  by_cases hd : e.dir = true
  · simp [hd] at h
  · rw [Bool.not_eq_true] at hd
    refine ⟨hd, ?_⟩
    rw [hd] at h
    simp only [Bool.false_eq_true, if_false] at h
    by_cases hp : strStartsWith e.name cfg.rootPfx = true
    · refine ⟨hp, ?_⟩
      rw [hp] at h
      simp only [Bool.not_true, Bool.false_eq_true, if_false] at h
      by_cases hs : selectEntry cfg (strDrop e.name cfg.rootPfx.length) = true
      · refine ⟨hs, ?_⟩
        rw [hs] at h
        simp only [Bool.not_true, Bool.false_eq_true, if_false] at h
        by_cases ht : (cfg.isTreeMode
            && !(isReadmeFile (strDrop e.name cfg.rootPfx.length))) = true
        · rw [ht] at h
          simp only [if_true, Option.some.injEq] at h
          rw [← h]
        · rw [Bool.not_eq_true] at ht
          rw [ht] at h
          simp only [Bool.false_eq_true, if_false] at h
          by_cases hk : shouldSkipFile (strDrop e.name cfg.rootPfx.length)
              (utf8Size e.content) e.content cfg.hasTsConfig = true
          · simp [hk] at h
          · rw [Bool.not_eq_true] at hk
            rw [hk] at h
            simp only [Bool.false_eq_true, if_false, Option.some.injEq] at h
            rw [← h]
      · rw [Bool.not_eq_true] at hs; simp [hs] at h
    · rw [Bool.not_eq_true] at hp; simp [hp] at h

/-- UTF-8 size of a repeated character. -/
theorem utf8Size_replicate (n : Nat) (c : Char) :
    utf8Size ⟨List.replicate n c⟩ = n * utf8CharLen c := by
  unfold utf8Size
  simp [List.map_replicate, List.sum_replicate, smul_eq_mul]

/-- Filtering a repetition by a predicate false at the repeated element. -/
theorem filter_replicate_neg {p : Char → Bool} (c : Char) (h : p c = false)
    (n : Nat) : (List.replicate n c).filter p = [] := by
  induction n with
  | zero => simp
  | succ k ih => simp [List.replicate_succ, List.filter_cons, h, ih]

/-- A repetition of a printable character is never classified binary. -/
theorem isBinaryContent_replicate (n : Nat) (c : Char)
    (h : isNonPrintable c.toNat = false) :
    isBinaryContent ⟨List.replicate n c⟩ = false := by
  unfold isBinaryContent
  simp only [show (String.mk (List.replicate n c)).data = List.replicate n c from rfl,
    List.length_replicate, List.take_replicate]
  rw [@filter_replicate_neg (fun x => isNonPrintable x.toNat) c h]
  simp

/-! ## Claim theorems -/

/-- C8: the binary-content heuristic classifies a content string as binary if
and only if, over the sample consisting of the first `min(length, 1000)`
characters, the fraction of characters whose code is 0, or is below 32 and
not 9 (tab), 10 (newline), or 13 (carriage return), is strictly greater
than 5%. -/
theorem binary_heuristic_c8 (content : String) :
    isBinaryContent content = true ↔
      ((((content.data.take (min content.data.length 1000)).filter
            (fun c => isNonPrintable c.toNat)).length : ℚ)
        / ((min content.data.length 1000 : Nat) : ℚ) > 5 / 100) := by
  unfold isBinaryContent
  simp only [decide_eq_true_eq]
  set ss := min content.data.length 1000 with hss
  set np := ((content.data.take ss).filter (fun c => isNonPrintable c.toNat)).length
    with hnp
  rcases Nat.eq_zero_or_pos ss with h0 | hpos
  · have hnp0 : np = 0 := by
      rw [hnp, h0]
      simp
    rw [h0, hnp0]
    norm_num
  · have hcast : (0 : ℚ) < (ss : ℚ) := by exact_mod_cast hpos
    simp only [gt_iff_lt]
    rw [div_lt_div_iff₀ (show (0 : ℚ) < 100 by norm_num) hcast]
    constructor
    · intro h
      have h5 : 5 * ss < np * 100 := by omega
      exact_mod_cast h5
    · intro h
      have h5 : 5 * ss < np * 100 := by exact_mod_cast h
      omega

/-- C9: resolution fails with an `InvalidInput`-class error exactly when the
raw url (after prefixing `https://` unless it starts with `http`) is not
parseable as a URL, or the parsed pathname has fewer than two non-empty
segments. -/
theorem invalid_input_c9 (parseUrl : String → Except String String) (p : Params) :
    (∃ err, resolveReference parseUrl p = .error err ∧ isInvalidInputError err = true)
      ↔ (∀ pathname,
          parseUrl (if strStartsWith p.url "http" then p.url else "https://" ++ p.url)
            = .ok pathname →
          (urlSegments pathname).length < 2) := by
  unfold resolveReference
  cases hp : parseUrl (if strStartsWith p.url "http" then p.url else "https://" ++ p.url) with
  | error msg =>
      simp only [hp]
      constructor
      · intro _ pathname hok
        exact absurd hok (by simp)
      · intro _
        exact ⟨.invalidUrl msg, rfl, rfl⟩
  | ok pathname =>
      simp only [hp]
      unfold resolveScope
      by_cases hlen : (urlSegments pathname).length < 2
      · simp only [hlen, if_true]
        constructor
        · intro _ pn hok
          cases hok
          exact hlen
        · intro _
          exact ⟨.invalidFormat, rfl, rfl⟩
      · simp only [hlen, if_false]
        constructor
        · rintro ⟨err, herr, -⟩
          cases herr
        · intro hall
          exact absurd (hall pathname rfl) hlen

/-- The fallback loop tries exactly the candidates that differ from the
requested branch, in order, stopping at the first success. -/
theorem tryFallbacks_spec (net : String → FetchResp) (branch : String)
    (l : List String) :
    (∀ b, (l.filter (fun c => !(c == branch))).find? (fun c => (net c).ok) = some b →
       tryFallbacks net branch l =
         (some (b, net b),
          (l.filter (fun c => !(c == branch))).takeWhile (fun c => !((net c).ok))
            ++ [b]))
    ∧ ((l.filter (fun c => !(c == branch))).find? (fun c => (net c).ok) = none →
       tryFallbacks net branch l = (none, l.filter (fun c => !(c == branch)))) := by
  induction l with
  | nil => exact ⟨fun b h => by simp at h, fun _ => rfl⟩
  | cons a l ih =>
      by_cases ha : (a == branch) = true
      · have hfilter : (a :: l).filter (fun c => !(c == branch))
            = l.filter (fun c => !(c == branch)) := by
          simp [List.filter_cons, ha]
        have hstep : tryFallbacks net branch (a :: l) = tryFallbacks net branch l := by
          simp [tryFallbacks, ha]
        rw [hfilter, hstep]
        exact ih
      · have hfilter : (a :: l).filter (fun c => !(c == branch))
            = a :: l.filter (fun c => !(c == branch)) := by
          simp only [List.filter_cons, ha]
          simp
        rw [hfilter]
        by_cases hok : (net a).ok = true
        · have hstep : tryFallbacks net branch (a :: l) = (some (a, net a), [a]) := by
            simp [tryFallbacks, ha, hok]
          constructor
          · intro b hb
            simp only [List.find?_cons, hok, if_true, Option.some.injEq] at hb
            subst hb
            rw [hstep]
            have htw : List.takeWhile (fun c => !((net c).ok))
                (a :: l.filter (fun c => !(c == branch))) = [] := by
              simp [List.takeWhile_cons, hok]
            rw [htw]
            rfl
          · intro hb
            simp [List.find?_cons, hok] at hb
        · have hokf : (net a).ok = false := by
            rw [Bool.not_eq_true] at hok
            exact hok
          have hstep : tryFallbacks net branch (a :: l)
              = ((tryFallbacks net branch l).1, a :: (tryFallbacks net branch l).2) := by
            simp [tryFallbacks, ha, hokf]
          constructor
          · intro b hb
            simp only [List.find?_cons, hokf, Bool.false_eq_true, if_false] at hb
            have := ih.1 b hb
            rw [hstep, this]
            have htw : List.takeWhile (fun c => !((net c).ok))
                (a :: l.filter (fun c => !(c == branch)))
                = a :: List.takeWhile (fun c => !((net c).ok))
                    (l.filter (fun c => !(c == branch))) := by
              simp [List.takeWhile_cons, hokf]
            rw [htw]
            rfl
          · intro hb
            simp only [List.find?_cons, hokf, Bool.false_eq_true, if_false] at hb
            have := ih.2 hb
            rw [hstep, this]

/-- C2: when the first zip fetch for the requested branch fails, the fetcher
retries the canonical fallbacks `main` then `master` in that order, skipping
the one equal to the requested branch, stops at the first success — which
becomes the effective branch, with no further requests issued — and, if no
attempt succeeds, fails with a `GitHubFetchError` carrying the status and
statusText of the original first attempt.  The second component of
`fetchZipWithFallback` is the ordered list of branches actually requested. -/
theorem branch_fallback_c2 (net : String → FetchResp) (branch : String)
    (hfail : (net branch).ok = false) :
    (∀ b, ((["main", "master"].filter (fun c => !(c == branch))).find?
            (fun c => (net c).ok)) = some b →
       fetchZipWithFallback net branch =
         (.ok (b, net b),
          branch ::
            ((["main", "master"].filter (fun c => !(c == branch))).takeWhile
              (fun c => !((net c).ok)) ++ [b])))
    ∧ (((["main", "master"].filter (fun c => !(c == branch))).find?
          (fun c => (net c).ok)) = none →
       fetchZipWithFallback net branch =
         (.error (.fetchError (net branch).status (net branch).statusText),
          branch :: (["main", "master"].filter (fun c => !(c == branch))))) := by
  have hspec := tryFallbacks_spec net branch ["main", "master"]
  constructor
  · intro b hb
    have hrun := hspec.1 b hb
    simp only [fetchZipWithFallback, hfail, Bool.false_eq_true, if_false, hrun]
  · intro hb
    have hrun := hspec.2 hb
    simp only [fetchZipWithFallback, hfail, Bool.false_eq_true, if_false, hrun]

/-- C1: a file that survives filtering whose original UTF-8 byte size
exceeds 30 KiB (30720 bytes) is stored as the first 30 KiB
(`substring(0, 30 * 1024)`) of the original content followed by the appended
marker stating the remaining size in KiB with two decimal places,
`isTruncated` is true, and exactly 30 KiB is counted toward
`displayTotalSize` (the original size toward `originalTotalSize`). -/
theorem truncation_c1 (cfg : ScanConfig) (st : ScanState) (e : ZipEntry)
    (hdir : e.dir = false)
    (hpfx : strStartsWith e.name cfg.rootPfx = true)
    (hsel : selectEntry cfg (strDrop e.name cfg.rootPfx.length) = true)
    (hcontent : (cfg.isTreeMode
        && !(isReadmeFile (strDrop e.name cfg.rootPfx.length))) = false)
    (hkeep : shouldSkipFile (strDrop e.name cfg.rootPfx.length)
        (utf8Size e.content) e.content cfg.hasTsConfig = false)
    (hbig : utf8Size e.content > MAX_DISPLAY_FILE_SIZE) :
    scanStep cfg st e =
      { fileTree := st.fileTree ++ [(strDrop e.name cfg.rootPfx.length,
          { size := utf8Size e.content,
            content := strTake e.content MAX_DISPLAY_FILE_SIZE
                         ++ truncationMarker (utf8Size e.content),
            isTruncated := true })],
        originalTotalSize := st.originalTotalSize + utf8Size e.content,
        displayTotalSize := st.displayTotalSize + MAX_DISPLAY_FILE_SIZE } := by
  have hentry : scanEntry cfg e
      = some (strDrop e.name cfg.rootPfx.length,
          { size := utf8Size e.content,
            content := strTake e.content MAX_DISPLAY_FILE_SIZE
                         ++ truncationMarker (utf8Size e.content),
            isTruncated := true },
          utf8Size e.content, MAX_DISPLAY_FILE_SIZE) := by
    unfold scanEntry
    rw [hdir]
    simp only [Bool.false_eq_true, if_false]
    rw [hpfx]
    simp only [Bool.not_true, Bool.false_eq_true, if_false]
    rw [hsel]
    simp only [Bool.not_true, Bool.false_eq_true, if_false]
    rw [hcontent]
    simp only [Bool.false_eq_true, if_false]
    rw [hkeep]
    simp only [Bool.false_eq_true, if_false]
    unfold processContent
    rw [if_pos hbig]
  unfold scanStep
  rw [hentry]

/-- The 40 KiB witness content for C1. -/
def bigContent : String := ⟨List.replicate 40960 'a'⟩

/-- The witness archive entry for C1: a 40 KiB text file. -/
def bigEntry : ZipEntry := ⟨"r-main/big.txt", false, bigContent⟩

/-- The witness scan configuration for C1: FULL mode, no filters. -/
def cfgC1 : ScanConfig :=
  { rootPfx := "r-main/", targetFile := none, targetDirs := [],
    targetExts := [], isTreeMode := false, hasTsConfig := false }

/-- The UTF-8 size of the C1 witness content. -/
theorem bigContent_utf8Size : utf8Size bigContent = 40960 := by
  rw [show bigContent = ⟨List.replicate 40960 'a'⟩ from rfl, utf8Size_replicate]
  decide

/-- The C1 witness entry passes every exclusion rule. -/
theorem bigEntry_not_skipped :
    shouldSkipFile (strDrop bigEntry.name cfgC1.rootPfx.length)
      (utf8Size bigEntry.content) bigEntry.content cfgC1.hasTsConfig = false := by
  rw [show strDrop bigEntry.name cfgC1.rootPfx.length = "big.txt" from by decide,
    show bigEntry.content = bigContent from rfl,
    show cfgC1.hasTsConfig = false from rfl]
  unfold shouldSkipFile
  rw [bigContent_utf8Size,
    show bigContent = ⟨List.replicate 40960 'a'⟩ from rfl,
    isBinaryContent_replicate 40960 'a' (by decide)]
  simp only [Bool.and_false]
  decide

/-- The C1 witness content is over the display limit. -/
theorem bigEntry_oversize :
    utf8Size bigEntry.content > MAX_DISPLAY_FILE_SIZE := by
  rw [show bigEntry.content = bigContent from rfl, bigContent_utf8Size]
  decide

/-- Witness for C1: a 40960-byte ASCII file is stored truncated to exactly
the first 30720 bytes of original content, with a marker noting `10.00KB`
remaining, `isTruncated` true, and 30 KiB counted toward the display
total. -/
theorem truncation_c1_witness :
    utf8Size bigEntry.content > MAX_DISPLAY_FILE_SIZE
    ∧ strDrop bigEntry.name cfgC1.rootPfx.length = "big.txt"
    ∧ scanStep cfgC1 ⟨[], 0, 0⟩ bigEntry
        = { fileTree := (⟨[], 0, 0⟩ : ScanState).fileTree
              ++ [(strDrop bigEntry.name cfgC1.rootPfx.length,
                  { size := utf8Size bigEntry.content,
                    content := strTake bigEntry.content MAX_DISPLAY_FILE_SIZE
                                 ++ truncationMarker (utf8Size bigEntry.content),
                    isTruncated := true })],
            originalTotalSize := (⟨[], 0, 0⟩ : ScanState).originalTotalSize
              + utf8Size bigEntry.content,
            displayTotalSize := (⟨[], 0, 0⟩ : ScanState).displayTotalSize
              + MAX_DISPLAY_FILE_SIZE }
    ∧ strTake bigEntry.content MAX_DISPLAY_FILE_SIZE = ⟨List.replicate 30720 'a'⟩
    ∧ utf8Size ⟨List.replicate 30720 'a'⟩ = 30720
    ∧ truncationMarker (utf8Size bigEntry.content)
        = "\n\nThis file is too large, truncated at 30KB. There is 10.00KB remaining." := by
  refine ⟨bigEntry_oversize, by decide, ?_, ?_, ?_, ?_⟩
  · exact truncation_c1 cfgC1 ⟨[], 0, 0⟩ bigEntry rfl (by decide) (by decide)
      (by decide) bigEntry_not_skipped bigEntry_oversize
  · rw [show bigEntry.content = bigContent from rfl,
      show bigContent = ⟨List.replicate 40960 'a'⟩ from rfl]
    unfold strTake
    rw [show (String.mk (List.replicate 40960 'a')).data = List.replicate 40960 'a'
        from rfl,
      List.take_replicate,
      show MAX_DISPLAY_FILE_SIZE ⊓ 40960 = 30720 from by decide]
  · rw [utf8Size_replicate]; decide
  · rw [show bigEntry.content = bigContent from rfl, bigContent_utf8Size]
    decide

/-- C5: a file that survives filtering whose original UTF-8 byte size is at
most 30 KiB is stored untruncated (`isTruncated` false) with exactly its
original content, and its full size counts toward both totals. -/
theorem roundtrip_c5 (cfg : ScanConfig) (st : ScanState) (e : ZipEntry)
    (hdir : e.dir = false)
    (hpfx : strStartsWith e.name cfg.rootPfx = true)
    (hsel : selectEntry cfg (strDrop e.name cfg.rootPfx.length) = true)
    (hcontent : (cfg.isTreeMode
        && !(isReadmeFile (strDrop e.name cfg.rootPfx.length))) = false)
    (hkeep : shouldSkipFile (strDrop e.name cfg.rootPfx.length)
        (utf8Size e.content) e.content cfg.hasTsConfig = false)
    (hsmall : utf8Size e.content ≤ MAX_DISPLAY_FILE_SIZE) :
    scanStep cfg st e =
      { fileTree := st.fileTree ++ [(strDrop e.name cfg.rootPfx.length,
          { size := utf8Size e.content, content := e.content,
            isTruncated := false })],
        originalTotalSize := st.originalTotalSize + utf8Size e.content,
        displayTotalSize := st.displayTotalSize + utf8Size e.content } := by
  have hentry : scanEntry cfg e
      = some (strDrop e.name cfg.rootPfx.length,
          { size := utf8Size e.content, content := e.content,
            isTruncated := false },
          utf8Size e.content, utf8Size e.content) := by
    unfold scanEntry
    rw [hdir]
    simp only [Bool.false_eq_true, if_false]
    rw [hpfx]
    simp only [Bool.not_true, Bool.false_eq_true, if_false]
    rw [hsel]
    simp only [Bool.not_true, Bool.false_eq_true, if_false]
    rw [hcontent]
    simp only [Bool.false_eq_true, if_false]
    rw [hkeep]
    simp only [Bool.false_eq_true, if_false]
    unfold processContent
    rw [if_neg (by omega)]
  unfold scanStep
  rw [hentry]

/-- Witness for C5: an 11-byte file is stored verbatim and untruncated. -/
theorem roundtrip_c5_witness :
    utf8Size "hello world" ≤ MAX_DISPLAY_FILE_SIZE
    ∧ scanStep { rootPfx := "r-main/", targetFile := none, targetDirs := [],
                 targetExts := [], isTreeMode := false, hasTsConfig := false }
        ⟨[], 0, 0⟩ ⟨"r-main/notes.txt", false, "hello world"⟩
        = { fileTree := [("notes.txt",
              { size := 11, content := "hello world", isTruncated := false })],
            originalTotalSize := 11, displayTotalSize := 11 } := by
  refine ⟨by decide, ?_⟩
  have h := roundtrip_c5
    { rootPfx := "r-main/", targetFile := none, targetDirs := [],
      targetExts := [], isTreeMode := false, hasTsConfig := false }
    ⟨[], 0, 0⟩ ⟨"r-main/notes.txt", false, "hello world"⟩
    rfl (by decide) (by decide) (by decide) (by decide) (by decide)
  rw [show strDrop "r-main/notes.txt" (String.length "r-main/") = "notes.txt"
    from by decide,
    show utf8Size "hello world" = 11 from by decide] at h
  rw [h]
  simp

/-- Modelled from the spec: the query-directory normalization as the claim
words it — strip leading slashes, ensure a trailing slash, then prefix the
path-embedded base directory whenever one exists and the entry does not
already start with it.  To be compared with `normalizeDir` from the source. -/
def specNormalizeDir (baseDir entry : String) : String :=
  let withSlash := ensureSlash (stripLeadingSlashes entry)
  if baseDir ≠ "" ∧ strStartsWith withSlash baseDir = false then
    baseDir ++ withSlash
  else withSlash

/-- The source's `normalizeDir` computes exactly the claim's normalization. -/
theorem normalizeDir_eq_spec (base d : String) :
    normalizeDir base d = specNormalizeDir base d := by
  unfold normalizeDir specNormalizeDir
  by_cases hb : base = ""
  · simp [hb]
  · have hb' : (base == "") = false := by
      simp [hb]
    by_cases hs : strStartsWith (ensureSlash (stripLeadingSlashes d)) base = true
    · simp [hb', hs, hb]
    · rw [Bool.not_eq_true] at hs
      simp [hb', hs, hb]

/-- C4: with a non-empty query `dir` parameter, the final directory scope is
exactly the comma-split, trimmed, non-empty query entries, each normalized by
stripping leading slashes, ensuring a trailing slash, and prefixing the
path-embedded base directory whenever one exists and the entry does not
already start with it (unconditionally, even for unrelated subtrees); any
path-embedded directory scope is entirely replaced. -/
theorem dir_precedence_c4 (pathname : String) (p : Params) (d : String)
    (r : Resolved)
    (hd : p.dir = some d)
    (hne : ((strSplit d ',').map jsTrim).filter (fun x => !(x == "")) ≠ [])
    (hres : resolveScope pathname p = .ok r) :
    r.finalTargetDirs
      = (((strSplit d ',').map jsTrim).filter (fun x => !(x == ""))).map
          (specNormalizeDir
            (((extractPathInfo ((urlSegments pathname).drop 2)).2.1).getD 0 "")) := by
  unfold resolveScope at hres
  by_cases hlen : (urlSegments pathname).length < 2
  · rw [if_pos hlen] at hres
    cases hres
  · rw [if_neg hlen] at hres
    have hcore : resolveScopeCore (urlSegments pathname) p = r := by
      injection hres
    rw [← hcore]
    unfold resolveScopeCore
    simp only [hd, queryDirsOf, Option.map_some']
    have hpos : 0 < (((strSplit d ',').map jsTrim).filter
        (fun x => !(x == ""))).length := List.length_pos.mpr hne
    simp only [hpos, if_pos]
    exact congrFun (congrArg List.map
      (funext (fun x => normalizeDir_eq_spec _ x))) _

/-- Witness for C4: path `/o/r/tree/b/src` embeds base directory `src/`;
query `dir=lib,/x` replaces it with `["src/lib/", "src/x/"]` — the unrelated
entry `/x` is still prefixed with `src/`. -/
theorem dir_precedence_c4_witness :
    resolveScope "/o/r/tree/b/src"
      { url := "x", dir := some "lib,/x", ext := none, branch := none,
        file := none, mode := none }
      = .ok { owner := "o", repo := "r", branch := "b",
              finalTargetDirs := ["src/lib/", "src/x/"], targetExts := [],
              targetFile := none, isTreeMode := false }
    ∧ ((strSplit "lib,/x" ',').map jsTrim).filter (fun x => !(x == "")) ≠ []
    ∧ ["src/lib/", "src/x/"]
      = (((strSplit "lib,/x" ',').map jsTrim).filter (fun x => !(x == ""))).map
          (specNormalizeDir
            (((extractPathInfo ((urlSegments "/o/r/tree/b/src").drop 2)).2.1).getD 0 "")) := by
  refine ⟨rfl, by decide, ?_⟩
  have h := dir_precedence_c4 "/o/r/tree/b/src"
    { url := "x", dir := some "lib,/x", ext := none, branch := none,
      file := none, mode := none }
    "lib,/x"
    { owner := "o", repo := "r", branch := "b",
      finalTargetDirs := ["src/lib/", "src/x/"], targetExts := [],
      targetFile := none, isTreeMode := false }
    rfl (by decide) rfl
  rw [← h]

/-- C6 (amended): under TREE mode, every included non-directory entry whose
relative path does not end with `readme.md` (case-insensitively) is recorded
as a zero-size, empty-content placeholder — unconditionally, so no exclusion
rule is applied and the result does not depend on the entry's content; an
included entry whose relative path does end with `readme.md`
(case-insensitively) has its content read and the exclusion rules applied. -/
theorem tree_mode_c6 (cfg : ScanConfig) (st : ScanState) (e : ZipEntry)
    (htree : cfg.isTreeMode = true)
    (hdir : e.dir = false)
    (hpfx : strStartsWith e.name cfg.rootPfx = true)
    (hsel : selectEntry cfg (strDrop e.name cfg.rootPfx.length) = true) :
    (isReadmeFile (strDrop e.name cfg.rootPfx.length) = false →
      scanStep cfg st e =
        { st with fileTree := st.fileTree
            ++ [(strDrop e.name cfg.rootPfx.length,
                { size := 0, content := "", isTruncated := false })] })
    ∧ (isReadmeFile (strDrop e.name cfg.rootPfx.length) = true →
      scanStep cfg st e =
        (if shouldSkipFile (strDrop e.name cfg.rootPfx.length)
              (utf8Size e.content) e.content cfg.hasTsConfig then st
         else
           { fileTree := st.fileTree
               ++ [(strDrop e.name cfg.rootPfx.length,
                   (processContent e.content).1)],
             originalTotalSize := st.originalTotalSize + utf8Size e.content,
             displayTotalSize := st.displayTotalSize
               + (processContent e.content).2 })) := by
  constructor
  · intro hnr
    have hentry : scanEntry cfg e
        = some (strDrop e.name cfg.rootPfx.length,
            { size := 0, content := "", isTruncated := false }, 0, 0) := by
      unfold scanEntry
      rw [hdir]
      simp only [Bool.false_eq_true, if_false]
      rw [hpfx]
      simp only [Bool.not_true, Bool.false_eq_true, if_false]
      rw [hsel]
      simp only [Bool.not_true, Bool.false_eq_true, if_false]
      rw [htree, hnr]
      simp only [Bool.not_false, Bool.true_and, if_true]
    unfold scanStep
    rw [hentry]
    simp
  · intro hr
    by_cases hk : shouldSkipFile (strDrop e.name cfg.rootPfx.length)
        (utf8Size e.content) e.content cfg.hasTsConfig = true
    · have hentry : scanEntry cfg e = none := by
        unfold scanEntry
        rw [hdir]
        simp only [Bool.false_eq_true, if_false]
        rw [hpfx]
        simp only [Bool.not_true, Bool.false_eq_true, if_false]
        rw [hsel]
        simp only [Bool.not_true, Bool.false_eq_true, if_false]
        rw [htree, hr]
        simp only [Bool.not_true, Bool.and_false, Bool.false_eq_true, if_false]
        rw [hk]
        simp only [if_true]
      unfold scanStep
      rw [hentry, if_pos hk]
    · rw [Bool.not_eq_true] at hk
      have hentry : scanEntry cfg e
          = some (strDrop e.name cfg.rootPfx.length,
              (processContent e.content).1, utf8Size e.content,
              (processContent e.content).2) := by
        unfold scanEntry
        rw [hdir]
        simp only [Bool.false_eq_true, if_false]
        rw [hpfx]
        simp only [Bool.not_true, Bool.false_eq_true, if_false]
        rw [hsel]
        simp only [Bool.not_true, Bool.false_eq_true, if_false]
        rw [htree, hr]
        simp only [Bool.not_true, Bool.and_false, Bool.false_eq_true, if_false]
        rw [hk]
        simp only [Bool.false_eq_true, if_false]
      unfold scanStep
      rw [hentry, if_neg (by rw [hk]; exact Bool.false_ne_true)]

/-- Counterexample for C6 as stated: the entry `myreadme.md`, whose filename
is not `readme.md` even case-insensitively, is nevertheless treated as a
README under TREE mode (the source tests `/readme\x2emd$/i` against the whole
relative path): its content is read, sized and stored, and the exclusion
rules are applied, instead of the zero-size empty placeholder the claim
requires. -/
theorem tree_mode_c6_counterexample :
    jsToLower "myreadme.md" ≠ "readme.md"
    ∧ scanStep { rootPfx := "r-main/", targetFile := none, targetDirs := [],
                 targetExts := [], isTreeMode := true, hasTsConfig := false }
        ⟨[], 0, 0⟩ ⟨"r-main/myreadme.md", false, "hello world"⟩
        = { fileTree := [("myreadme.md",
              { size := 11, content := "hello world", isTruncated := false })],
            originalTotalSize := 11, displayTotalSize := 11 }
    ∧ ({ size := 11, content := "hello world", isTruncated := false } : FileInfo)
        ≠ { size := 0, content := "", isTruncated := false } := by
  refine ⟨by decide, by decide, by decide⟩

/-- Witness for C6 (amended): under TREE mode, `src/app.ts` is recorded as a
zero-size empty placeholder, while `docs/README.md` has its content read and
stored. -/
theorem tree_mode_c6_witness :
    (isReadmeFile "src/app.ts" = false
      ∧ scanStep { rootPfx := "r-main/", targetFile := none, targetDirs := [],
                   targetExts := [], isTreeMode := true, hasTsConfig := false }
          ⟨[], 0, 0⟩ ⟨"r-main/src/app.ts", false, "let x = 1"⟩
        = { fileTree := [("src/app.ts",
              { size := 0, content := "", isTruncated := false })],
            originalTotalSize := 0, displayTotalSize := 0 })
    ∧ (isReadmeFile "docs/README.md" = true
      ∧ scanStep { rootPfx := "r-main/", targetFile := none, targetDirs := [],
                   targetExts := [], isTreeMode := true, hasTsConfig := false }
          ⟨[], 0, 0⟩ ⟨"r-main/docs/README.md", false, "# Title"⟩
        = { fileTree := [("docs/README.md",
              { size := 7, content := "# Title", isTruncated := false })],
            originalTotalSize := 7, displayTotalSize := 7 }) := by
  constructor
  · refine ⟨by decide, ?_⟩
    have h := (tree_mode_c6
      { rootPfx := "r-main/", targetFile := none, targetDirs := [],
        targetExts := [], isTreeMode := true, hasTsConfig := false }
      ⟨[], 0, 0⟩ ⟨"r-main/src/app.ts", false, "let x = 1"⟩
      rfl rfl (by decide) (by decide)).1 (by decide)
    rw [h]
    simp [show strDrop "r-main/src/app.ts" (String.length "r-main/") = "src/app.ts"
      from by decide]
  · refine ⟨by decide, ?_⟩
    have h := (tree_mode_c6
      { rootPfx := "r-main/", targetFile := none, targetDirs := [],
        targetExts := [], isTreeMode := true, hasTsConfig := false }
      ⟨[], 0, 0⟩ ⟨"r-main/docs/README.md", false, "# Title"⟩
      rfl rfl (by decide) (by decide)).2 (by decide)
    rw [h]
    rw [if_neg (by decide)]
    simp [show strDrop "r-main/docs/README.md" (String.length "r-main/")
        = "docs/README.md" from by decide,
      show processContent "# Title"
        = ({ size := 7, content := "# Title", isTruncated := false }, 7)
        from by decide,
      show utf8Size "# Title" = 7 from by decide]

/-- In a TypeScript project every `.js`/`.mjs` name is skipped, whatever the
earlier checks say. -/
theorem shouldSkipFile_ts_js (fn : String) (size : Nat) (content : String)
    (h : (strEndsWith fn ".js" || strEndsWith fn ".mjs") = true) :
    shouldSkipFile fn size content true = true := by
  unfold shouldSkipFile
  split_ifs with h1 h2 h3 h4 h5 <;>
    first
      | rfl
      | exact absurd (by rw [Bool.true_and]; exact h) h3

/-- C7: in an archive with at least one entry under the root prefix whose
name ends with `tsconfig.json`, every file whose relative path ends in `.js`
or `.mjs` is excluded from FULL-mode output; in an archive with no such
entry, the same file is not excluded by this rule — it is included provided
it is selected and passes the lock-file, extension, size and binary-content
exclusions. -/
theorem tsconfig_exclusion_c7 (r : Resolved) (entries : List ZipEntry)
    (p : String) (hfull : r.isTreeMode = false) :
    ((∃ e ∈ entries, (strStartsWith e.name (rootPfxOf r)
          && strEndsWith e.name "tsconfig.json") = true) →
      (strEndsWith p ".js" || strEndsWith p ".mjs") = true →
      ¬ ∃ fi, (p, fi) ∈ (processArchive r entries).fileTree)
    ∧ (hasTsConfigIn entries (rootPfxOf r) = false →
      ∀ e ∈ entries, e.dir = false → e.name = rootPfxOf r ++ p →
        selectEntry (scanConfigOf r entries) p = true →
        isLockFile p = false →
        isImageOrBinaryExt p = false →
        utf8Size e.content ≤ MAX_FILE_SIZE →
        isBinaryContent e.content = false →
        ∃ fi, (p, fi) ∈ (processArchive r entries).fileTree) := by
  constructor
  · rintro hts hjs ⟨fi, hmem⟩
    have htc : (scanConfigOf r entries).hasTsConfig = true := by
      show hasTsConfigIn entries (rootPfxOf r) = true
      rw [hasTsConfigIn, List.any_eq_true]
      obtain ⟨e, he, hc⟩ := hts
      exact ⟨e, he, hc⟩
    rw [processArchive, buildFileTree_fileTree, List.mem_filterMap] at hmem
    obtain ⟨e, he, hsome⟩ := hmem
    cases hx : scanEntry (scanConfigOf r entries) e with
    | none => rw [hx] at hsome; cases hsome
    | some x =>
        rw [hx] at hsome
        simp only [Option.map_some', Option.some.injEq, Prod.mk.injEq] at hsome
        obtain ⟨hd', hp', hs', hk'⟩ :=
          scanEntry_eq_some (scanConfigOf r entries) e x hx
        have hrel : strDrop e.name (scanConfigOf r entries).rootPfx.length
            = p := by rw [← hk', hsome.1]
        have hnone : scanEntry (scanConfigOf r entries) e = none := by
          unfold scanEntry
          rw [hd']
          simp only [Bool.false_eq_true, if_false]
          rw [hp']
          simp only [Bool.not_true, Bool.false_eq_true, if_false]
          rw [hrel] at hs' ⊢
          rw [hs']
          simp only [Bool.not_true, Bool.false_eq_true, if_false]
          rw [show (scanConfigOf r entries).isTreeMode = false from hfull]
          simp only [Bool.false_and, Bool.false_eq_true, if_false]
          rw [htc, shouldSkipFile_ts_js p (utf8Size e.content) e.content hjs]
          simp only [if_true]
        rw [hnone] at hx
        cases hx
  · intro htc e he hdir hname hsel h1 h2 h3 h4
    refine ⟨(processContent e.content).1, ?_⟩
    rw [processArchive, buildFileTree_fileTree, List.mem_filterMap]
    refine ⟨e, he, ?_⟩
    have hrel : strDrop e.name (scanConfigOf r entries).rootPfx.length = p := by
      rw [show (scanConfigOf r entries).rootPfx = rootPfxOf r from rfl, hname,
        strDrop_append]
    have hpfx : strStartsWith e.name (scanConfigOf r entries).rootPfx = true := by
      rw [show (scanConfigOf r entries).rootPfx = rootPfxOf r from rfl, hname]
      exact strStartsWith_append _ _
    have hskip : shouldSkipFile p (utf8Size e.content) e.content false = false := by
      unfold shouldSkipFile
      rw [h1]
      simp only [Bool.false_eq_true, if_false]
      rw [h2]
      simp only [Bool.false_eq_true, if_false]
      simp only [Bool.false_and, Bool.false_eq_true, if_false]
      rw [if_neg (by omega)]
      rw [h4]
      simp only [Bool.and_false, Bool.false_eq_true, if_false]
    unfold scanEntry
    rw [hdir]
    simp only [Bool.false_eq_true, if_false]
    rw [hpfx]
    simp only [Bool.not_true, Bool.false_eq_true, if_false]
    rw [hrel, hsel]
    simp only [Bool.not_true, Bool.false_eq_true, if_false]
    rw [show (scanConfigOf r entries).isTreeMode = false from hfull]
    simp only [Bool.false_and, Bool.false_eq_true, if_false]
    rw [show (scanConfigOf r entries).hasTsConfig
        = hasTsConfigIn entries (rootPfxOf r) from rfl, htc, hskip]
    simp only [Bool.false_eq_true, if_false, Option.map_some']

/-- Witness for C7: with `tsconfig.json` present, `dist/bundle.js` is absent
from the scanned output; in the same-shaped archive without `tsconfig.json`,
`dist/bundle.js` is present. -/
theorem tsconfig_exclusion_c7_witness :
    (¬ ∃ fi, ("dist/bundle.js", fi) ∈
      (processArchive
        { owner := "o", repo := "r", branch := "main", finalTargetDirs := [],
          targetExts := [], targetFile := none, isTreeMode := false }
        [⟨"r-main/tsconfig.json", false, "x"⟩,
         ⟨"r-main/dist/bundle.js", false, "let a = 1"⟩]).fileTree)
    ∧ (∃ fi, ("dist/bundle.js", fi) ∈
      (processArchive
        { owner := "o", repo := "r", branch := "main", finalTargetDirs := [],
          targetExts := [], targetFile := none, isTreeMode := false }
        [⟨"r-main/dist/bundle.js", false, "let a = 1"⟩]).fileTree) := by
  constructor
  · exact (tsconfig_exclusion_c7
      { owner := "o", repo := "r", branch := "main", finalTargetDirs := [],
        targetExts := [], targetFile := none, isTreeMode := false }
      [⟨"r-main/tsconfig.json", false, "x"⟩,
       ⟨"r-main/dist/bundle.js", false, "let a = 1"⟩]
      "dist/bundle.js" rfl).1
      ⟨⟨"r-main/tsconfig.json", false, "x"⟩, by decide, by decide⟩
      (by decide)
  · exact (tsconfig_exclusion_c7
      { owner := "o", repo := "r", branch := "main", finalTargetDirs := [],
        targetExts := [], targetFile := none, isTreeMode := false }
      [⟨"r-main/dist/bundle.js", false, "let a = 1"⟩]
      "dist/bundle.js" rfl).2
      (by decide)
      ⟨"r-main/dist/bundle.js", false, "let a = 1"⟩ (by decide)
      rfl (by decide) (by decide) (by decide) (by decide) (by decide) (by decide)

/-- The lowercase of `File not found: <path>` always starts with the
`file not found` trigger the 404 mapping looks for. -/
theorem fileNotFound_message_includes (t : String) :
    strIncludes (jsToLower ("File not found: " ++ t)) "file not found" = true := by
  unfold strIncludes
  rw [List.any_eq_true]
  refine ⟨0, List.mem_range.mpr (by omega), ?_⟩
  simp only [List.drop_zero, decide_eq_true_eq]
  rw [show (jsToLower ("File not found: " ++ t)).data
      = ("File not found: " ++ t).data.map charLower from rfl,
    String.data_append, List.map_append,
    show ("file not found" : String).data.length = 14 from by decide,
    List.take_append_eq_append_take,
    show (List.map charLower ("File not found: " : String).data).length = 16
      from by decide,
    show (14 : Nat) - 16 = 0 from by decide,
    List.take_zero, List.append_nil]
  decide

/-- C3 (amended): with a truthy single-file target, the pipeline fails with
`FileNotFound` exactly when the target path is absent from the filtered
result — whether missing from the archive or dropped by an exclusion rule —
and otherwise returns the target's stored content; the `FileNotFound` error
is mapped to 404 provided its lowercased message contains none of the
400-class trigger phrases of `mapGitHubErrorToStatus`. -/
theorem single_file_c3 (r : Resolved) (entries : List ZipEntry) (t : String)
    (ht : r.targetFile = some t) (hne : t ≠ "") :
    ((runPipeline r entries = .error (.fileNotFound t))
       ↔ List.lookup t (processArchive r entries).fileTree = none)
    ∧ (∀ fi, List.lookup t (processArchive r entries).fileTree = some fi →
        runPipeline r entries = .ok fi.content)
    ∧ ((strIncludes (jsToLower ("File not found: " ++ t)) "invalid url" = false
        ∧ strIncludes (jsToLower ("File not found: " ++ t))
            "invalid github repository url format" = false
        ∧ strIncludes (jsToLower ("File not found: " ++ t))
            "arguments are required" = false
        ∧ strIncludes (jsToLower ("File not found: " ++ t))
            "url parameter is required" = false
        ∧ strIncludes (jsToLower ("File not found: " ++ t))
            "url must be a non-empty string" = false) →
       mapGitHubErrorToStatus (.fileNotFound t) = 404) := by
  have htruthy : jsTruthy r.targetFile = true := by
    rw [ht]
    unfold jsTruthy
    simp [hne]
  have hget : r.targetFile.getD "" = t := by rw [ht]; rfl
  refine ⟨?_, ?_, ?_⟩
  · unfold runPipeline
    rw [htruthy, hget]
    simp only [if_true]
    cases hlook : List.lookup t (processArchive r entries).fileTree with
    | none => simp
    | some fi => simp
  · intro fi hlook
    unfold runPipeline
    rw [htruthy, hget]
    simp only [if_true]
    rw [hlook]
  · rintro ⟨g1, g2, g3, g4, g5⟩
    simp only [mapGitHubErrorToStatus, errorMessage]
    rw [g1, g2, g3, g4, g5]
    simp [fileNotFound_message_includes t]

/-- Counterexample for C3 as stated: requesting the missing single file
`invalid url` makes the pipeline fail with `FileNotFound`, but the
message-substring dispatch of `mapGitHubErrorToStatus` sees `invalid url` in
`File not found: invalid url` and yields 400, not a 404-class outcome. -/
theorem single_file_c3_counterexample :
    runPipeline
        { owner := "o", repo := "r", branch := "main", finalTargetDirs := [],
          targetExts := [], targetFile := some "invalid url",
          isTreeMode := false } []
      = .error (.fileNotFound "invalid url")
    ∧ mapGitHubErrorToStatus (.fileNotFound "invalid url") = 400
    ∧ mapGitHubErrorToStatus (.fileNotFound "invalid url") ≠ 404 := by
  refine ⟨rfl, by decide, by decide⟩

/-- Witness for C3 (amended): the missing target `src/a.ts` over an empty
archive yields `FileNotFound`; a present target returns its content; and
this error's message is trigger-free, so it maps to 404. -/
theorem single_file_c3_witness :
    runPipeline
        { owner := "o", repo := "r", branch := "main", finalTargetDirs := [],
          targetExts := [], targetFile := some "src/a.ts",
          isTreeMode := false } []
      = .error (.fileNotFound "src/a.ts")
    ∧ runPipeline
        { owner := "o", repo := "r", branch := "main", finalTargetDirs := [],
          targetExts := [], targetFile := some "src/a.ts",
          isTreeMode := false }
        [⟨"r-main/src/a.ts", false, "let a = 1"⟩]
      = .ok "let a = 1"
    ∧ mapGitHubErrorToStatus (.fileNotFound "src/a.ts") = 404 := by
  refine ⟨?_, ?_, ?_⟩
  · exact (single_file_c3
      { owner := "o", repo := "r", branch := "main", finalTargetDirs := [],
        targetExts := [], targetFile := some "src/a.ts", isTreeMode := false }
      [] "src/a.ts" rfl (by decide)).1.mpr (by decide)
  · exact (single_file_c3
      { owner := "o", repo := "r", branch := "main", finalTargetDirs := [],
        targetExts := [], targetFile := some "src/a.ts", isTreeMode := false }
      [⟨"r-main/src/a.ts", false, "let a = 1"⟩] "src/a.ts" rfl (by decide)).2.1
      { size := 9, content := "let a = 1", isTruncated := false } (by decide)
  · exact (single_file_c3
      { owner := "o", repo := "r", branch := "main", finalTargetDirs := [],
        targetExts := [], targetFile := some "src/a.ts", isTreeMode := false }
      [] "src/a.ts" rfl (by decide)).2.2
      ⟨by decide, by decide, by decide, by decide, by decide⟩

/-- Lookup in a `filterMap` all of whose produced pairs are one fixed
key/value pair, when at least one element produces a pair. -/
theorem lookup_filterMap_const (f : ZipEntry → Option (String × FileInfo))
    (t : String) (v : FileInfo) (l : List ZipEntry)
    (hall : ∀ a x, f a = some x → x = (t, v))
    (hex : ∃ a ∈ l, (f a).isSome = true) :
    List.lookup t (l.filterMap f) = some v := by
  induction l with
  | nil => simp at hex
  | cons a l ih =>
      rw [List.filterMap_cons]
      cases hfa : f a with
      | none =>
          obtain ⟨b, hb, hbs⟩ := hex
          rcases List.mem_cons.mp hb with hba | hbl
          · rw [hba, hfa] at hbs
            cases hbs
          · exact ih ⟨b, hbl, hbs⟩
      | some x =>
          rw [hall a x hfa]
          simp [List.lookup]

/-- C10: with a truthy single-file target under TREE mode, if the target
exists in the archive under the root prefix as a non-directory entry and its
path does not end in `readme.md` (case-insensitively), the pipeline resolves
successfully with the empty string: the target's zero-content placeholder is
returned, with no exclusion rule ever applied to it. -/
theorem tree_single_file_c10 (r : Resolved) (entries : List ZipEntry)
    (t : String) (e : ZipEntry)
    (ht : r.targetFile = some t) (hne : t ≠ "")
    (htree : r.isTreeMode = true)
    (hnr : isReadmeFile t = false)
    (he : e ∈ entries) (hdir : e.dir = false)
    (hname : e.name = rootPfxOf r ++ t) :
    runPipeline r entries = .ok "" := by
  have htf : (scanConfigOf r entries).targetFile = some t := ht
  have htruthy : jsTruthy (some t) = true := by
    unfold jsTruthy
    simp [hne]
  have hseleq : ∀ rel, selectEntry (scanConfigOf r entries) rel = true →
      rel = t := by
    intro rel hs
    unfold selectEntry at hs
    rw [htf, htruthy] at hs
    simp only [if_true, decide_eq_true_eq, Option.some.injEq] at hs
    exact hs
  have hselt : selectEntry (scanConfigOf r entries) t = true := by
    unfold selectEntry
    rw [htf, htruthy]
    simp
  have htreecfg : (scanConfigOf r entries).isTreeMode = true := htree
  have hall : ∀ e' x,
      (scanEntry (scanConfigOf r entries) e').map (fun y => (y.1, y.2.1))
        = some x →
      x = (t, { size := 0, content := "", isTruncated := false }) := by
    intro e' x h
    cases hy : scanEntry (scanConfigOf r entries) e' with
    | none => rw [hy] at h; cases h
    | some y =>
        rw [hy] at h
        simp only [Option.map_some', Option.some.injEq] at h
        obtain ⟨hd', hp', hs', hk'⟩ :=
          scanEntry_eq_some (scanConfigOf r entries) e' y hy
        have hrel : strDrop e'.name (scanConfigOf r entries).rootPfx.length
            = t := hseleq _ hs'
        have hval : scanEntry (scanConfigOf r entries) e'
            = some (t, { size := 0, content := "", isTruncated := false },
                    0, 0) := by
          unfold scanEntry
          rw [hd']
          simp only [Bool.false_eq_true, if_false]
          rw [hp']
          simp only [Bool.not_true, Bool.false_eq_true, if_false]
          rw [hrel] at hs' ⊢
          rw [hs']
          simp only [Bool.not_true, Bool.false_eq_true, if_false]
          rw [htreecfg, hnr]
          simp only [Bool.not_false, Bool.true_and, if_true]
        rw [hval] at hy
        cases hy
        rw [← h]
  have hentry : scanEntry (scanConfigOf r entries) e
      = some (t, { size := 0, content := "", isTruncated := false }, 0, 0) := by
    have hp' : strStartsWith e.name (scanConfigOf r entries).rootPfx = true := by
      rw [show (scanConfigOf r entries).rootPfx = rootPfxOf r from rfl, hname]
      exact strStartsWith_append _ _
    have hrel : strDrop e.name (scanConfigOf r entries).rootPfx.length = t := by
      rw [show (scanConfigOf r entries).rootPfx = rootPfxOf r from rfl, hname,
        strDrop_append]
    unfold scanEntry
    rw [hdir]
    simp only [Bool.false_eq_true, if_false]
    rw [hp']
    simp only [Bool.not_true, Bool.false_eq_true, if_false]
    rw [hrel, hselt]
    simp only [Bool.not_true, Bool.false_eq_true, if_false]
    rw [htreecfg, hnr]
    simp only [Bool.not_false, Bool.true_and, if_true]
  have hlook : List.lookup t (processArchive r entries).fileTree
      = some { size := 0, content := "", isTruncated := false } := by
    rw [processArchive, buildFileTree_fileTree]
    exact lookup_filterMap_const _ t _ entries hall ⟨e, he, by rw [hentry]; rfl⟩
  unfold runPipeline
  rw [ht, show jsTruthy (some t) = true from htruthy]
  simp only [if_true]
  rw [show (some t).getD "" = t from rfl, hlook]

/-- Witness for C10: target `src/a.bin` (a name every FULL-mode exclusion
would drop) under TREE mode resolves to the empty string. -/
theorem tree_single_file_c10_witness :
    runPipeline
        { owner := "o", repo := "r", branch := "main", finalTargetDirs := [],
          targetExts := [], targetFile := some "src/a.bin",
          isTreeMode := true }
        [⟨"r-main/src/a.bin", false, "xyz"⟩]
      = .ok "" := by
  exact tree_single_file_c10
    { owner := "o", repo := "r", branch := "main", finalTargetDirs := [],
      targetExts := [], targetFile := some "src/a.bin", isTreeMode := true }
    [⟨"r-main/src/a.bin", false, "xyz"⟩]
    "src/a.bin" ⟨"r-main/src/a.bin", false, "xyz"⟩
    rfl (by decide) rfl (by decide) (by decide) rfl rfl

/-- Witness for C2: requested branch `feature-x` fails, `main` and `master`
both succeed; the effective branch is `main` and exactly
`[feature-x, main]` are requested — no request goes to `master`. -/
theorem branch_fallback_c2_witness :
    ((fun b => if b == "feature-x" then FetchResp.mk false 404 "Not Found"
               else FetchResp.mk true 200 "OK") "feature-x").ok = false
    ∧ fetchZipWithFallback
        (fun b => if b == "feature-x" then FetchResp.mk false 404 "Not Found"
                  else FetchResp.mk true 200 "OK") "feature-x"
        = (.ok ("main", FetchResp.mk true 200 "OK"), ["feature-x", "main"]) :=
  ⟨by decide,
   by
    have := (branch_fallback_c2
      (fun b => if b == "feature-x" then FetchResp.mk false 404 "Not Found"
                else FetchResp.mk true 200 "OK") "feature-x" (by decide)).1
      "main" (by decide)
    simpa using this⟩

end Pera1
